import Mathlib

/-!
Verification of `util/metadata.py` (viral-ngs provenance recording).

The Python module records, for each executed command, a step record
describing its arguments, tracked input/output files (identified by a
content hash), environment and outcome, and later loads all persisted
records into a provenance graph.

This file gives a shallow embedding of that module:
* the file-system is a snapshot `FS : String → Option FileData`;
* `Hasher.call` embeds `Hasher.__call__`;
* `mkInFile` / `mkOutFile` embed `InFile.__new__` / `OutFile.__new__`
  (the classes used when tracking is enabled);
* `runCmdWithTracking` embeds the wrapper `_run_cmd_with_tracking`
  returned by `add_metadata_tracking`, with external collaborators
  (uuid entropy, git tagging, store write success, passwd lookup)
  supplied as oracles;
* `loadGraph` embeds the record-insertion loop of `ProvenanceGraph.load`
  with the graph made an explicit value (in the source the graph variable
  `pgraph` used by `load` is never defined; see the order-independence
  theorem below).
-/

/-- Role of a tracked file parameter: `InFile` or `OutFile` in the source. -/
inductive FileRole where
  | input
  | output
deriving DecidableEq, Repr

/-- Embedding of a `FileArg` value (`InFile`/`OutFile` are `str` subclasses
carrying the path; the role records which subclass the value belongs to). -/
structure FileArg where
  path : String
  role : FileRole
deriving DecidableEq, Repr

/-- Equality of a `FileArg` against a plain string: `str` subclasses inherit
`str.__eq__`, which compares the underlying character content. -/
def FileArg.beqStr (f : FileArg) (s : String) : Bool :=
  f.path == s

/-- Snapshot of one file-system entry: kind bits, byte content and the
stat fields the recorder reads (`st_size`, `st_mtime`, `st_ctime`, `st_uid`),
plus permission bits used by `open` probes. -/
structure FileData where
  isRegular : Bool
  isFifo : Bool
  content : List Nat
  size : Nat
  mtime : Nat
  ctime : Nat
  uid : Nat
  readable : Bool
  writable : Bool
deriving DecidableEq, Repr

/-- The file system as seen at one instant: `none` means the path does not
exist (so `os.stat`/`open` raise and `os.path.isfile` is false). -/
abbrev FS := String → Option FileData

/-- Modelled from the spec: `util.file.hash_file` is not under `src/`; per the
spec it computes a digest of the file's bytes (a function of content only,
independent of path or name) and may raise on I/O failure, modelled by the
`ioFail` oracle. -/
def hash_file (digest : List Nat → String) (ioFail : String → Bool) (fs : FS)
    (file : String) : Except Unit String :=
  if ioFail file then Except.error ()
  else
    match fs file with
    | some fd => Except.ok (digest fd.content)
    | none => Except.error ()

/-- Embedding of `Hasher.__call__`: returns `''` unless the path is an
existing regular non-FIFO file; prefixes the algorithm name; any exception
while hashing is caught and yields `''`. -/
def Hasher.call (alg : String) (digest : List Nat → String)
    (ioFail : String → Bool) (fs : FS) (file : String) : String :=
  match fs file with
  | some fd =>
    if fd.isRegular && !fd.isFifo then
      match hash_file digest ioFail fs file with
      | Except.ok h => alg ++ "_" ++ h
      | Except.error _ => ""
    else ""
  | none => ""

/-- Embedding of `InFile.__new__` (tracking enabled): `with open(args[0])`
raises if the path is missing or unreadable; otherwise the constructed value
is the path string itself, tagged as an input. -/
def mkInFile (fs : FS) (p : String) : Except Unit FileArg :=
  match fs p with
  | some fd => if fd.readable then Except.ok ⟨p, FileRole.input⟩ else Except.error ()
  | none => Except.error ()

/-- The empty file created by the `OutFile` writability probe
(`open(fname, 'w')` on a nonexistent path). -/
def emptyFileData : FileData :=
  { isRegular := true, isFifo := false, content := [], size := 0,
    mtime := 0, ctime := 0, uid := 0, readable := true, writable := true }

/-- Embedding of `OutFile.__new__` (tracking enabled).  All checks are
skipped when `VIRAL_NGS_SKIP_CMD` is in the environment.  For a nonexistent
path the probe creates an empty file and immediately unlinks it (`canCreate`
models whether the creating `open(fname, 'w')` succeeds); for an existing
path construction fails unless it is a regular writable file.  Returns the
constructed value together with the resulting file system. -/
def mkOutFile (skipCmd : Bool) (canCreate : String → Bool) (fs : FS)
    (p : String) : Except Unit (FileArg × FS) :=
  if skipCmd then Except.ok (⟨p, FileRole.output⟩, fs)
  else
    match fs p with
    | none =>
      if canCreate p then
        let fs1 : FS := fun q => if q = p then some emptyFileData else fs q
        let fs2 : FS := fun q => if q = p then none else fs1 q
        Except.ok (⟨p, FileRole.output⟩, fs2)
      else Except.error ()
    | some fd =>
      if fd.isRegular && fd.writable then Except.ok (⟨p, FileRole.output⟩, fs)
      else Except.error ()

/-- Claim C6: two regular files with identical byte content (same algorithm)
receive identical content identities, regardless of path or name; a missing
or non-regular file, or any I/O failure during hashing, yields the empty
identity, and the operation is total (it never raises to its caller). -/
theorem c6_content_identity (alg : String) (digest : List Nat → String)
    (ioFail : String → Bool) (fs : FS) (p q : String) (fdp fdq : FileData)
    (hp : fs p = some fdp) (hq : fs q = some fdq)
    (hrp : fdp.isRegular = true) (hfp : fdp.isFifo = false)
    (hrq : fdq.isRegular = true) (hfq : fdq.isFifo = false)
    (hc : fdp.content = fdq.content)
    (hip : ioFail p = false) (hiq : ioFail q = false) :
    Hasher.call alg digest ioFail fs p = Hasher.call alg digest ioFail fs q ∧
    Hasher.call alg digest ioFail fs p = alg ++ "_" ++ digest fdp.content ∧
    (∀ r, fs r = none → Hasher.call alg digest ioFail fs r = "") ∧
    (∀ r fdr, fs r = some fdr → fdr.isRegular = false →
      Hasher.call alg digest ioFail fs r = "") ∧
    (∀ r, ioFail r = true → Hasher.call alg digest ioFail fs r = "") := by
  refine ⟨?_, ?_, ?_, ?_, ?_⟩
  · simp [Hasher.call, hash_file, hp, hq, hrp, hfp, hrq, hfq, hip, hiq, hc]
  · simp [Hasher.call, hash_file, hp, hrp, hfp, hip]
  · intro r hr
    simp [Hasher.call, hr]
  · intro r fdr hr hreg
    simp [Hasher.call, hr, hreg]
  · intro r hr
    cases hfsr : fs r with
    | none => simp [Hasher.call, hfsr]
    | some fdr => simp [Hasher.call, hash_file, hfsr, hr]

/-- Witness for C6 at concrete files `a.bin` and `b.bin` with equal content. -/
theorem c6_content_identity_witness :
    Hasher.call "sha1" (fun c => toString c.length) (fun _ => false)
        (fun s => if s = "a.bin" ∨ s = "b.bin" then
          some { isRegular := true, isFifo := false, content := [7, 8],
                 size := 2, mtime := 1, ctime := 1, uid := 0,
                 readable := true, writable := true } else none)
        "a.bin"
      = Hasher.call "sha1" (fun c => toString c.length) (fun _ => false)
        (fun s => if s = "a.bin" ∨ s = "b.bin" then
          some { isRegular := true, isFifo := false, content := [7, 8],
                 size := 2, mtime := 1, ctime := 1, uid := 0,
                 readable := true, writable := true } else none)
        "b.bin" :=
  (c6_content_identity "sha1" (fun c => toString c.length) (fun _ => false)
    (fun s => if s = "a.bin" ∨ s = "b.bin" then
      some { isRegular := true, isFifo := false, content := [7, 8],
             size := 2, mtime := 1, ctime := 1, uid := 0,
             readable := true, writable := true } else none)
    "a.bin" "b.bin"
    { isRegular := true, isFifo := false, content := [7, 8],
      size := 2, mtime := 1, ctime := 1, uid := 0,
      readable := true, writable := true }
    { isRegular := true, isFifo := false, content := [7, 8],
      size := 2, mtime := 1, ctime := 1, uid := 0,
      readable := true, writable := true }
    (by decide) (by decide) rfl rfl rfl rfl rfl rfl rfl).1

/-- Claim C7: with tracking enabled, constructing an input capability
succeeds exactly over an existing readable path; construction over a missing
or unreadable path raises at construction time; a successfully constructed
value carries exactly the given path string (hence compares and hashes as
that string) and the input role. -/
theorem c7_infile_construction (fs : FS) (p : String) :
    ((∃ fd, fs p = some fd ∧ fd.readable = true) →
      mkInFile fs p = Except.ok ⟨p, FileRole.input⟩) ∧
    (fs p = none → mkInFile fs p = Except.error ()) ∧
    (∀ fd, fs p = some fd → fd.readable = false →
      mkInFile fs p = Except.error ()) ∧
    (∀ f, mkInFile fs p = Except.ok f →
      f.path = p ∧ f.role = FileRole.input ∧ f.beqStr p = true) := by
  refine ⟨?_, ?_, ?_, ?_⟩
  · rintro ⟨fd, hfd, hr⟩
    simp [mkInFile, hfd, hr]
  · intro h
    simp [mkInFile, h]
  · intro fd hfd hr
    simp [mkInFile, hfd, hr]
  · intro f hf
    cases hfs : fs p with
    | none => simp [mkInFile, hfs] at hf
    | some fd =>
      by_cases hr : fd.readable
      · simp [mkInFile, hfs, hr] at hf
        subst hf
        exact ⟨rfl, rfl, by simp [FileArg.beqStr]⟩
      · simp [mkInFile, hfs, hr] at hf

/-- Witness for C7: a readable file yields a value equal to the path string. -/
theorem c7_infile_construction_witness :
    mkInFile (fun s => if s = "in.txt" then some emptyFileData else none)
        "in.txt" = Except.ok ⟨"in.txt", FileRole.input⟩ :=
  (c7_infile_construction
    (fun s => if s = "in.txt" then some emptyFileData else none) "in.txt").1
    ⟨emptyFileData, by decide, rfl⟩

/-- Counterexample to claim C8 as stated: with tracking enabled but
`VIRAL_NGS_SKIP_CMD` present in the environment, `OutFile.__new__` performs
no checks at all, so construction over an existing path that is neither
regular nor writable nevertheless succeeds. -/
theorem c8_counterexample :
    (mkOutFile true (fun _ => false)
      (fun s => if s = "ro.txt" then
        some { isRegular := false, isFifo := false, content := [],
               size := 0, mtime := 0, ctime := 0, uid := 0,
               readable := true, writable := false } else none)
      "ro.txt").isOk = true ∧
    ((fun s => if s = "ro.txt" then
        some { isRegular := false, isFifo := false, content := [],
               size := 0, mtime := 0, ctime := 0, uid := 0,
               readable := true, writable := false } else none : FS)
      "ro.txt").isSome = true := by
  constructor
  · rfl
  · decide

/-- Claim C8 (amended: unless `VIRAL_NGS_SKIP_CMD` is set, which bypasses
every check): with tracking enabled, constructing an output capability over
an existing path succeeds iff the path is a regular writable file; over a
nonexistent path it succeeds iff the creation probe succeeds, in which case
the probe file has been created and removed again, leaving the file system
observably unchanged. -/
theorem c8_outfile_construction (canCreate : String → Bool) (fs : FS)
    (p : String) :
    (∀ fd, fs p = some fd →
      (mkOutFile false canCreate fs p =
        (if fd.isRegular && fd.writable then
          Except.ok (⟨p, FileRole.output⟩, fs) else Except.error ()))) ∧
    (fs p = none → canCreate p = true →
      ∃ r, mkOutFile false canCreate fs p = Except.ok r ∧
        r.1 = ⟨p, FileRole.output⟩ ∧ r.2 = fs) ∧
    (fs p = none → canCreate p = false →
      mkOutFile false canCreate fs p = Except.error ()) := by
  refine ⟨?_, ?_, ?_⟩
  · intro fd hfd
    simp [mkOutFile, hfd]
  · intro hnone hcc
    refine ⟨(⟨p, FileRole.output⟩, fun q => if q = p then none else
      if q = p then some emptyFileData else fs q), ?_, rfl, ?_⟩
    · simp [mkOutFile, hnone, hcc]
    · funext q
      by_cases hq : q = p
      · subst hq
        simp [hnone]
      · simp [hq]
  · intro hnone hcc
    simp [mkOutFile, hnone, hcc]

/-- Witness for C8 (amended): creating an output capability over a
nonexistent creatable path succeeds and leaves the file system unchanged. -/
theorem c8_outfile_construction_witness :
    ∃ r, mkOutFile false (fun _ => true)
        (fun _ => (none : Option FileData)) "new.txt" = Except.ok r ∧
      r.1 = ⟨"new.txt", FileRole.output⟩ ∧
      r.2 = (fun _ => (none : Option FileData)) :=
  (c8_outfile_construction (fun _ => true) (fun _ => none) "new.txt").2.1
    rfl rfl

/-!
## Step Recorder: embedding of `add_metadata_tracking` / `_run_cmd_with_tracking`
-/

/-- The value of one command argument as seen by the recorder: a tracked
file value (`InFile`/`OutFile`), a plain scalar, or a (possibly nested)
list of values (argparse `nargs` / `action='append'`). -/
inductive ArgValue where
  | file (f : FileArg)
  | scalar (s : String)
  | list (vs : List ArgValue)
deriving Repr

mutual

/-- Does a value contain a `FileArg` anywhere inside it? -/
def ArgValue.hasFileArg : ArgValue → Bool
  | ArgValue.file _ => true
  | ArgValue.scalar _ => false
  | ArgValue.list vs => hasFileArgList vs

/-- `hasFileArg` over a list of values. -/
def hasFileArgList : List ArgValue → Bool
  | [] => false
  | v :: vs => v.hasFileArg || hasFileArgList vs

end

mutual

/-- Embedding of the inner `get_FileArgs` helper of `_run_cmd_with_tracking`:
a flat list of `(index, file_arg)` pairs for every `FileArg` inside `val`.
The Python expression `val and isinstance(val, FileArg) and [...] or ...`
drops a `FileArg` whose string is empty (falsy). -/
def get_FileArgs : ArgValue → List Nat → List (List Nat × FileArg)
  | ArgValue.file f, idx => if f.path = "" then [] else [(idx, f)]
  | ArgValue.scalar _, _ => []
  | ArgValue.list vs, idx => get_FileArgsList vs idx 0

/-- `get_FileArgs` mapped over the elements of a list value, extending the
index prefix with each element's position. -/
def get_FileArgsList : List ArgValue → List Nat → Nat → List (List Nat × FileArg)
  | [], _, _ => []
  | v :: vs, idx, i => get_FileArgs v (idx ++ [i]) ++ get_FileArgsList vs idx (i + 1)

end

/-- Port name: `arg + ''.join('_' + str(i) for i in idx)`. -/
def port_name (arg : String) (idx : List Nat) : String :=
  arg ++ String.join (idx.map (fun i => "_" ++ toString i))

/-- One persisted file-occurrence entry (`file_info` in the source).
`none` in an optional field means the corresponding dict key is absent. -/
structure FileInfo where
  fname : String
  realpath : String
  abspath : String
  arg : String
  arg_idx : List Nat
  hash : Option String := none
  size : Option Nat := none
  mtime : Option Nat := none
  ctime : Option Nat := none
  owner : Option String := none
deriving DecidableEq, Repr

/-- The `run_info` sub-dict of a step record (fields used by the claims). -/
structure RunInfo where
  beg_time : Nat
  end_time : Nat
  exception : Option String
  argv : List String
  cmd_was_skipped : Bool
deriving Repr

/-- A step record (`step_data` in the source), restricted to the fields the
claims are about. -/
structure StepData where
  step_id : String
  run_id : String
  cmd_module : String
  cmd_name : String
  code_hash : String
  run_info : RunInfo
  args : List (String × ArgValue)
  metadata_from_cmd_line : Option ArgValue
  in_files : List (String × FileInfo)
  out_files : List (String × FileInfo)
deriving Repr

/-- Relevant process environment: tracking enablement
(`VIRAL_NGS_METADATA_PATH` set), skip flag (`VIRAL_NGS_SKIP_CMD` set),
optional workflow run id (`VIRAL_NGS_METADATA_RUN_ID`) and `sys.argv`. -/
structure TrackEnv where
  trackingEnabled : Bool
  skipCmd : Bool
  runIdEnv : Option String
  argv : List String

/-- External collaborators of the recorder, supplied as oracles:
fresh ids from `create_run_id` (wall clock, user, cwd, uuid entropy),
the best-effort git hash from `tag_code_version` (empty on failure, caught
internally), success of the final `util.file.dump_file` store write, the
digest function and I/O-failure oracle for hashing, the passwd database
(`pwd.getpwuid`, `none` when the uid has no entry), and path resolution. -/
structure Oracles where
  freshId : String
  freshRunId : String
  tagHash : String
  dumpOk : Bool
  digest : List Nat → String
  ioFail : String → Bool
  pwdb : Nat → Option String
  realpathF : String → String
  abspathF : String → String
  begTime : Nat
  endTime : Nat

/-- What the command body returns: `None`, a mapping (only mappings are
mined for extra metadata and file occurrences), or some other value. -/
inductive CmdResult where
  | noneV
  | mapping (m : List (String × ArgValue))
  | other (s : String)

/-- Python dict assignment `m[k] = v` on an insertion-ordered dict,
modelled on an association list: overwrite in place if the key exists,
else append. -/
def dictSet (m : List (String × FileInfo)) (k : String) (v : FileInfo) :
    List (String × FileInfo) :=
  if m.any (fun kv => kv.1 == k) then
    m.map (fun kv => if kv.1 == k then (k, v) else kv)
  else m ++ [(k, v)]

/-- Build one `file_info` entry: path fields always; the `hash` key for
inputs and, when the command did not raise, for outputs (the hash value may
still be `''`); stat fields only when `os.stat` succeeds, with `owner`
additionally requiring the `pwd.getpwuid` lookup to succeed (each failure
is caught and logged). -/
def buildFileInfo (o : Oracles) (fs : FS) (cmd_exception : Option String)
    (arg : String) (idx : List Nat) (f : FileArg) : FileInfo :=
  let base : FileInfo :=
    { fname := f.path, realpath := o.realpathF f.path,
      abspath := o.abspathF f.path, arg := arg, arg_idx := idx }
  if f.role = FileRole.input ∨ cmd_exception = none then
    let base := { base with hash := some (Hasher.call "sha1" o.digest o.ioFail fs f.path) }
    match fs f.path with
    | some fd =>
      { base with size := some fd.size, mtime := some fd.mtime,
                  ctime := some fd.ctime, owner := o.pwdb fd.uid }
    | none => base
  else base

/-- Insert one discovered occurrence into the `(in_files, out_files)` pair,
keyed by port name, on the side selected by the value's role. -/
def insOcc (o : Oracles) (fs : FS) (cmd_exception : Option String)
    (arg : String)
    (st : List (String × FileInfo) × List (String × FileInfo))
    (p : List Nat × FileArg) :
    List (String × FileInfo) × List (String × FileInfo) :=
  let fi := buildFileInfo o fs cmd_exception arg p.1 p.2
  let pn := port_name arg p.1
  if p.2.role = FileRole.input then (dictSet st.1 pn fi, st.2)
  else (st.1, dictSet st.2 pn fi)

/-- The double loop over `itertools.chain(args_dict.items(),
metadata_from_cmd_return.items())` and `get_FileArgs(val)`, filling the
`in_files` and `out_files` mappings. -/
def buildPorts (o : Oracles) (fs : FS) (cmd_exception : Option String)
    (pairs : List (String × ArgValue)) :
    List (String × FileInfo) × List (String × FileInfo) :=
  pairs.foldl
    (fun st av => (get_FileArgs av.2 []).foldl (insOcc o fs cmd_exception av.1) st)
    ([], [])

/-- Assembly of `step_data`: pop `metadata` and `func_main` from the
argument dict, derive step and run ids, record run info (including the
captured exception text and the skip flag), keep the remaining argument
dict as `args`, and build the two port mappings from the remaining
arguments chained with the returned mapping (if the result is a mapping). -/
def buildStepData (env : TrackEnv) (o : Oracles) (fs : FS)
    (cmd_module cmd_name : String) (argsDict : List (String × ArgValue))
    (cmd_exception : Option String) (cmd_result : CmdResult) : StepData :=
  let run_id := env.runIdEnv.getD o.freshRunId
  let step_id := o.freshId ++ "__" ++ cmd_module ++ "__" ++ cmd_name
  let metadata_from_cmd_line :=
    (argsDict.find? (fun kv => kv.1 == "metadata")).map Prod.snd
  let args_dict :=
    argsDict.filter (fun kv => !(kv.1 == "metadata") && !(kv.1 == "func_main"))
  let mdRet := match cmd_result with
    | CmdResult.mapping m => m
    | _ => []
  let ports := buildPorts o fs cmd_exception (args_dict ++ mdRet)
  { step_id := step_id, run_id := run_id,
    cmd_module := cmd_module, cmd_name := cmd_name,
    code_hash := o.tagHash,
    run_info := { beg_time := o.begTime, end_time := o.endTime,
                  exception := cmd_exception, argv := env.argv,
                  cmd_was_skipped := env.skipCmd },
    args := args_dict, metadata_from_cmd_line := metadata_from_cmd_line,
    in_files := ports.1, out_files := ports.2 }

/-- The body of the inner `try` in the `finally` block: assemble the record
and write it to the store (`dump_file`); the write may fail, which the
caller catches. -/
def recordMetadata (env : TrackEnv) (o : Oracles) (fs : FS)
    (cmd_module cmd_name : String) (argsDict : List (String × ArgValue))
    (cmd_exception : Option String) (cmd_result : CmdResult) :
    Except String (String × StepData) :=
  let sd := buildStepData env o fs cmd_module cmd_name argsDict cmd_exception cmd_result
  if o.dumpOk then Except.ok (sd.step_id ++ ".json", sd)
  else Except.error "dump_file failed"

/-- Outcome of one invocation of the wrapper: what the invoker observes
(either the re-raised body exception or the wrapper's `None` return),
how many times the command body ran, and the store writes performed. -/
structure TrackOutcome where
  result : Except String CmdResult
  bodyInvocations : Nat
  store : List (String × StepData)

/-- Embedding of `_run_cmd_with_tracking`.  The body runs once unless
`VIRAL_NGS_SKIP_CMD` is set (then `cmd_result = None`); an exception from
the body is captured; in the `finally` block, if tracking is enabled the
record is assembled and written, with any recording error caught and
reduced to a warning; finally the captured body exception, if any, is
re-raised, and otherwise the wrapper returns `None`. -/
def runCmdWithTracking (env : TrackEnv) (o : Oracles) (fs : FS)
    (cmd_module cmd_name : String) (argsDict : List (String × ArgValue))
    (body : Except String CmdResult) : TrackOutcome :=
  let stage :=
    if env.skipCmd then ((none : Option String), CmdResult.noneV, 0)
    else
      match body with
      | Except.ok r => (none, r, 1)
      | Except.error e => (some e, CmdResult.noneV, 1)
  let store :=
    if env.trackingEnabled then
      match recordMetadata env o fs cmd_module cmd_name argsDict stage.1 stage.2.1 with
      | Except.ok w => [w]
      | Except.error _ => []
    else []
  { result := match stage.1 with
      | some e => Except.error e
      | none => Except.ok CmdResult.noneV,
    bodyInvocations := stage.2.2,
    store := store }

/-!
## Concrete fixtures used by witnesses and counterexamples
-/

/-- The empty file system. -/
def fs0 : FS := fun _ => none

/-- A fixed oracle bundle for concrete evaluations. -/
def cOracles : Oracles :=
  { freshId := "ID", freshRunId := "RID", tagHash := "", dumpOk := true,
    digest := fun c => toString c.length, ioFail := fun _ => false,
    pwdb := fun _ => none, realpathF := fun s => s, abspathF := fun s => s,
    begTime := 0, endTime := 1 }

/-- Environment with tracking disabled. -/
def cEnvOff : TrackEnv :=
  { trackingEnabled := false, skipCmd := false, runIdEnv := none, argv := [] }

/-- Environment with tracking enabled. -/
def cEnvOn : TrackEnv :=
  { trackingEnabled := true, skipCmd := false, runIdEnv := none, argv := [] }

/-- Environment with tracking enabled and `VIRAL_NGS_SKIP_CMD` set. -/
def cEnvSkip : TrackEnv :=
  { trackingEnabled := true, skipCmd := true, runIdEnv := none, argv := [] }

/-!
## Claims about the Step Recorder wrapper
-/

/-- Claim C1: the invoker sees an exception exactly when the command body
itself raised one (and the body actually ran), and then it is the body's
original exception; in particular no failure of the recording logic
(identity computation, stat, serialization, store write — all of which the
oracles `o` range over) is ever surfaced to the invoker. -/
theorem c1_reraise_original (env : TrackEnv) (o : Oracles) (fs : FS)
    (cm cn : String) (argsD : List (String × ArgValue))
    (body : Except String CmdResult) (e : String) :
    (runCmdWithTracking env o fs cm cn argsD body).result = Except.error e ↔
      (env.skipCmd = false ∧ body = Except.error e) := by
  cases hs : env.skipCmd <;> cases body <;> simp [runCmdWithTracking, hs]

/-- Counterexample to claim C5 as stated: the wrapper does not propagate
the command body's return value.  With tracking disabled and a body that
returns a (non-`None`) value, the invoker receives the wrapper's implicit
`None`, not that value. -/
theorem c5_counterexample :
    (runCmdWithTracking cEnvOff cOracles fs0 "m" "c" []
        (Except.ok (CmdResult.other "x"))).result = Except.ok CmdResult.noneV ∧
    CmdResult.other "x" ≠ CmdResult.noneV ∧
    (runCmdWithTracking cEnvOff cOracles fs0 "m" "c" []
        (Except.ok (CmdResult.other "x"))).store = [] := by
  refine ⟨rfl, fun h => CmdResult.noConfusion h, rfl⟩

/-- Claim C5 (amended): with tracking disabled the wrapper writes nothing
to any store; the invoker observes the body's error behavior unchanged but
receives `None` rather than the body's return value; a record can only be
persisted when tracking is enabled, and with tracking enabled it is
persisted (exactly one record) provided the store write succeeds. -/
theorem c5_disabled_frame (env : TrackEnv) (o : Oracles) (fs : FS)
    (cm cn : String) (argsD : List (String × ArgValue))
    (body : Except String CmdResult) :
    (env.trackingEnabled = false →
      (runCmdWithTracking env o fs cm cn argsD body).store = []) ∧
    ((runCmdWithTracking env o fs cm cn argsD body).result =
      (if env.skipCmd then Except.ok CmdResult.noneV
       else match body with
         | Except.ok _ => Except.ok CmdResult.noneV
         | Except.error e => Except.error e)) ∧
    ((runCmdWithTracking env o fs cm cn argsD body).store ≠ [] →
      env.trackingEnabled = true) ∧
    (env.trackingEnabled = true → o.dumpOk = true →
      (runCmdWithTracking env o fs cm cn argsD body).store.length = 1) := by
  refine ⟨?_, ?_, ?_, ?_⟩
  · intro hoff
    simp [runCmdWithTracking, hoff]
  · cases hs : env.skipCmd <;> cases body <;> simp [runCmdWithTracking, hs]
  · intro hne
    cases ht : env.trackingEnabled with
    | false => exact absurd (by simp [runCmdWithTracking, ht]) hne
    | true => rfl
  · intro ht hd
    simp [runCmdWithTracking, recordMetadata, ht, hd]

/-- Witness for C5 (amended): with tracking disabled nothing is stored, and
with tracking enabled and a successful write exactly one record is stored. -/
theorem c5_disabled_frame_witness :
    (runCmdWithTracking cEnvOff cOracles fs0 "m" "c" []
        (Except.ok CmdResult.noneV)).store = [] ∧
    (runCmdWithTracking cEnvOn cOracles fs0 "m" "c" []
        (Except.ok CmdResult.noneV)).store.length = 1 :=
  ⟨(c5_disabled_frame cEnvOff cOracles fs0 "m" "c" []
      (Except.ok CmdResult.noneV)).1 rfl,
   (c5_disabled_frame cEnvOn cOracles fs0 "m" "c" []
      (Except.ok CmdResult.noneV)).2.2.2 rfl rfl⟩

/-- Claim C10: the command body is skipped (run zero times, result treated
as `None`) exactly when `VIRAL_NGS_SKIP_CMD` is present, and run exactly
once otherwise; every persisted record carries `cmd_was_skipped` equal to
that flag. -/
theorem c10_skip_flag (env : TrackEnv) (o : Oracles) (fs : FS)
    (cm cn : String) (argsD : List (String × ArgValue))
    (body : Except String CmdResult) :
    (runCmdWithTracking env o fs cm cn argsD body).bodyInvocations =
      (if env.skipCmd then 0 else 1) ∧
    ∀ w ∈ (runCmdWithTracking env o fs cm cn argsD body).store,
      w.2.run_info.cmd_was_skipped = env.skipCmd := by
  constructor
  · cases hs : env.skipCmd <;> cases body <;> simp [runCmdWithTracking, hs]
  · intro w hw
    cases ht : env.trackingEnabled with
    | false => simp [runCmdWithTracking, ht] at hw
    | true =>
      cases hd : o.dumpOk with
      | false => simp [runCmdWithTracking, recordMetadata, ht, hd] at hw
      | true =>
        simp [runCmdWithTracking, recordMetadata, ht, hd] at hw
        subst hw
        simp [buildStepData]

/-- Witness for C10: with the skip flag set, the body runs zero times and
the persisted record's `cmd_was_skipped` is true. -/
theorem c10_skip_flag_witness :
    (runCmdWithTracking cEnvSkip cOracles fs0 "m" "c" []
        (Except.ok CmdResult.noneV)).bodyInvocations = 0 ∧
    (buildStepData cEnvSkip cOracles fs0 "m" "c" [] none
        CmdResult.noneV).run_info.cmd_was_skipped = true :=
  ⟨(c10_skip_flag cEnvSkip cOracles fs0 "m" "c" []
      (Except.ok CmdResult.noneV)).1,
   (c10_skip_flag cEnvSkip cOracles fs0 "m" "c" []
      (Except.ok CmdResult.noneV)).2
     ((buildStepData cEnvSkip cOracles fs0 "m" "c" [] none
        CmdResult.noneV).step_id ++ ".json",
      buildStepData cEnvSkip cOracles fs0 "m" "c" [] none CmdResult.noneV)
     (List.Mem.head _)⟩

/-!
## Lemmas about port-mapping construction
-/

/-- Every entry of `dictSet m k v` is an old entry or the inserted pair. -/
theorem mem_dictSet {m : List (String × FileInfo)} {k : String} {v : FileInfo}
    {x : String × FileInfo} (hx : x ∈ dictSet m k v) : x ∈ m ∨ x = (k, v) := by
  cases h : m.any (fun kv => kv.1 == k) with
  | true =>
    simp only [dictSet, h, if_true] at hx
    obtain ⟨y, hy, hxy⟩ := List.mem_map.mp hx
    by_cases hk : y.1 == k
    · right
      rw [if_pos hk] at hxy
      exact hxy.symm
    · left
      rw [if_neg hk] at hxy
      exact hxy ▸ hy
  | false =>
    simp only [dictSet, h, Bool.false_eq_true, if_false] at hx
    rcases List.mem_append.mp hx with h1 | h1
    · exact Or.inl h1
    · exact Or.inr (List.mem_singleton.mp h1)

/-- The inserted key is among the keys of `dictSet m k v`. -/
theorem key_mem_dictSet (m : List (String × FileInfo)) (k : String)
    (v : FileInfo) : k ∈ (dictSet m k v).map Prod.fst := by
  cases h : m.any (fun kv => kv.1 == k) with
  | true =>
    simp only [dictSet, h, if_true]
    obtain ⟨y, hy, hk⟩ := List.any_eq_true.mp h
    refine List.mem_map.mpr
      ⟨(fun kv => if kv.1 == k then (k, v) else kv) y,
       List.mem_map.mpr ⟨y, hy, rfl⟩, ?_⟩
    simp [hk]
  | false =>
    simp [dictSet, h]

/-- `dictSet` never loses keys. -/
theorem keys_mono_dictSet {m : List (String × FileInfo)} {x k : String}
    {v : FileInfo} (hx : x ∈ m.map Prod.fst) :
    x ∈ (dictSet m k v).map Prod.fst := by
  cases h : m.any (fun kv => kv.1 == k) with
  | true =>
    simp only [dictSet, h, if_true]
    obtain ⟨y, hy, hyx⟩ := List.mem_map.mp hx
    refine List.mem_map.mpr
      ⟨(fun kv => if kv.1 == k then (k, v) else kv) y,
       List.mem_map.mpr ⟨y, hy, rfl⟩, ?_⟩
    by_cases hk : y.1 == k
    · simp only [hk, if_true]
      exact (eq_of_beq hk).symm.trans hyx
    · simp only [hk, Bool.false_eq_true, if_false]
      exact hyx
  | false =>
    simp only [dictSet, h, Bool.false_eq_true, if_false, List.map_append]
    exact List.mem_append_left _ hx

/-- Every input-side entry after `insOcc` is an old entry or the entry for
the occurrence just inserted (which then has the input role). -/
theorem mem_insOcc_fst {o : Oracles} {fs : FS} {cexc : Option String}
    {a : String} {st : List (String × FileInfo) × List (String × FileInfo)}
    {p : List Nat × FileArg} {x : String × FileInfo}
    (hx : x ∈ (insOcc o fs cexc a st p).1) :
    x ∈ st.1 ∨ (p.2.role = FileRole.input ∧
      x = (port_name a p.1, buildFileInfo o fs cexc a p.1 p.2)) := by
  by_cases hr : p.2.role = FileRole.input
  · simp only [insOcc, hr, if_true] at hx
    rcases mem_dictSet hx with h | h
    · exact Or.inl h
    · exact Or.inr ⟨hr, h⟩
  · simp only [insOcc, hr, if_false] at hx
    exact Or.inl hx

/-- Every output-side entry after `insOcc` is an old entry or the entry for
the occurrence just inserted (which then has the output role). -/
theorem mem_insOcc_snd {o : Oracles} {fs : FS} {cexc : Option String}
    {a : String} {st : List (String × FileInfo) × List (String × FileInfo)}
    {p : List Nat × FileArg} {x : String × FileInfo}
    (hx : x ∈ (insOcc o fs cexc a st p).2) :
    x ∈ st.2 ∨ (p.2.role = FileRole.output ∧
      x = (port_name a p.1, buildFileInfo o fs cexc a p.1 p.2)) := by
  by_cases hr : p.2.role = FileRole.input
  · simp only [insOcc, hr, if_true] at hx
    exact Or.inl hx
  · simp only [insOcc, hr, if_false] at hx
    rcases mem_dictSet hx with h | h
    · exact Or.inl h
    · refine Or.inr ⟨?_, h⟩
      cases hr2 : p.2.role with
      | input => exact absurd hr2 hr
      | output => rfl

/-- Origin of input-side entries across the inner `get_FileArgs` loop. -/
theorem mem_foldl_insOcc_fst (o : Oracles) (fs : FS) (cexc : Option String)
    (a : String) (l : List (List Nat × FileArg)) :
    ∀ st x, x ∈ (l.foldl (insOcc o fs cexc a) st).1 →
      x ∈ st.1 ∨ ∃ p, p ∈ l ∧ p.2.role = FileRole.input ∧
        x = (port_name a p.1, buildFileInfo o fs cexc a p.1 p.2) := by
  induction l with
  | nil => exact fun st x hx => Or.inl hx
  | cons q t ih =>
    intro st x hx
    rcases ih _ x hx with h | ⟨p, hp, hrole, hx2⟩
    · rcases mem_insOcc_fst h with h2 | ⟨hr, hx2⟩
      · exact Or.inl h2
      · exact Or.inr ⟨q, List.mem_cons_self q t, hr, hx2⟩
    · exact Or.inr ⟨p, List.mem_cons_of_mem _ hp, hrole, hx2⟩

/-- Origin of output-side entries across the inner `get_FileArgs` loop. -/
theorem mem_foldl_insOcc_snd (o : Oracles) (fs : FS) (cexc : Option String)
    (a : String) (l : List (List Nat × FileArg)) :
    ∀ st x, x ∈ (l.foldl (insOcc o fs cexc a) st).2 →
      x ∈ st.2 ∨ ∃ p, p ∈ l ∧ p.2.role = FileRole.output ∧
        x = (port_name a p.1, buildFileInfo o fs cexc a p.1 p.2) := by
  induction l with
  | nil => exact fun st x hx => Or.inl hx
  | cons q t ih =>
    intro st x hx
    rcases ih _ x hx with h | ⟨p, hp, hrole, hx2⟩
    · rcases mem_insOcc_snd h with h2 | ⟨hr, hx2⟩
      · exact Or.inl h2
      · exact Or.inr ⟨q, List.mem_cons_self q t, hr, hx2⟩
    · exact Or.inr ⟨p, List.mem_cons_of_mem _ hp, hrole, hx2⟩

/-- Origin of input-side entries of the complete port mapping: each comes
from a discovered file occurrence with the input role. -/
theorem mem_buildPorts_fst (o : Oracles) (fs : FS) (cexc : Option String)
    (pairs : List (String × ArgValue)) :
    ∀ st x,
      x ∈ (pairs.foldl
        (fun st av => (get_FileArgs av.2 []).foldl (insOcc o fs cexc av.1) st)
        st).1 →
      x ∈ st.1 ∨ ∃ av p, av ∈ pairs ∧ p ∈ get_FileArgs av.2 [] ∧
        p.2.role = FileRole.input ∧
        x = (port_name av.1 p.1, buildFileInfo o fs cexc av.1 p.1 p.2) := by
  induction pairs with
  | nil => exact fun st x hx => Or.inl hx
  | cons q t ih =>
    intro st x hx
    rcases ih _ x hx with h | ⟨av, p, hav, hp, hrole, hx2⟩
    · rcases mem_foldl_insOcc_fst o fs cexc q.1 _ _ x h with h2 | ⟨p, hp, hrole, hx2⟩
      · exact Or.inl h2
      · exact Or.inr ⟨q, p, List.mem_cons_self q t, hp, hrole, hx2⟩
    · exact Or.inr ⟨av, p, List.mem_cons_of_mem _ hav, hp, hrole, hx2⟩

/-- Origin of output-side entries of the complete port mapping. -/
theorem mem_buildPorts_snd (o : Oracles) (fs : FS) (cexc : Option String)
    (pairs : List (String × ArgValue)) :
    ∀ st x,
      x ∈ (pairs.foldl
        (fun st av => (get_FileArgs av.2 []).foldl (insOcc o fs cexc av.1) st)
        st).2 →
      x ∈ st.2 ∨ ∃ av p, av ∈ pairs ∧ p ∈ get_FileArgs av.2 [] ∧
        p.2.role = FileRole.output ∧
        x = (port_name av.1 p.1, buildFileInfo o fs cexc av.1 p.1 p.2) := by
  induction pairs with
  | nil => exact fun st x hx => Or.inl hx
  | cons q t ih =>
    intro st x hx
    rcases ih _ x hx with h | ⟨av, p, hav, hp, hrole, hx2⟩
    · rcases mem_foldl_insOcc_snd o fs cexc q.1 _ _ x h with h2 | ⟨p, hp, hrole, hx2⟩
      · exact Or.inl h2
      · exact Or.inr ⟨q, p, List.mem_cons_self q t, hp, hrole, hx2⟩
    · exact Or.inr ⟨av, p, List.mem_cons_of_mem _ hav, hp, hrole, hx2⟩

/-- `buildFileInfo` when the occurrence is hashed (input role, or the
command did not raise): the `hash` key is present, and the stat fields are
present exactly when the file can be statted. -/
theorem buildFileInfo_eq_pos (o : Oracles) (fs : FS) (cexc : Option String)
    (a : String) (idx : List Nat) (f : FileArg)
    (hcond : f.role = FileRole.input ∨ cexc = none) :
    buildFileInfo o fs cexc a idx f =
      (match fs f.path with
       | some fd =>
         { fname := f.path, realpath := o.realpathF f.path,
           abspath := o.abspathF f.path, arg := a, arg_idx := idx,
           hash := some (Hasher.call "sha1" o.digest o.ioFail fs f.path),
           size := some fd.size, mtime := some fd.mtime,
           ctime := some fd.ctime, owner := o.pwdb fd.uid }
       | none =>
         { fname := f.path, realpath := o.realpathF f.path,
           abspath := o.abspathF f.path, arg := a, arg_idx := idx,
           hash := some (Hasher.call "sha1" o.digest o.ioFail fs f.path) }) := by
  simp only [buildFileInfo]
  rw [if_pos hcond]

/-- `buildFileInfo` for an output occurrence of a failed command: only the
path fields are recorded; `hash` and all stat fields are absent. -/
theorem buildFileInfo_eq_neg (o : Oracles) (fs : FS) (cexc : Option String)
    (a : String) (idx : List Nat) (f : FileArg)
    (hcond : ¬(f.role = FileRole.input ∨ cexc = none)) :
    buildFileInfo o fs cexc a idx f =
      { fname := f.path, realpath := o.realpathF f.path,
        abspath := o.abspathF f.path, arg := a, arg_idx := idx } := by
  simp only [buildFileInfo]
  rw [if_neg hcond]

/-- A regular input file fixture. -/
def c3fd : FileData :=
  { isRegular := true, isFifo := false, content := [1, 2, 3], size := 3,
    mtime := 10, ctime := 11, uid := 4242, readable := true, writable := true }

/-- A file system holding only the fixture input file `in.fq`. -/
def c3fs : FS := fun s => if s = "in.fq" then some c3fd else none

/-- The file-occurrence entry built for the fixture input file (with a
passwd database that has no entry for its owning uid). -/
def c3fi : FileInfo :=
  buildFileInfo cOracles c3fs none "reads" [] ⟨"in.fq", FileRole.input⟩

/-- Counterexample to claim C3 as stated: for an input occurrence whose
owning uid has no passwd entry, the recorded entry carries the content
identity and the size/mtime/ctime statistics but no owner field, although
the claim asserts that input entries include all the statistics
(size, mtime, ctime, owner). -/
theorem c3_counterexample :
    ("reads", c3fi) ∈ (buildStepData cEnvOn cOracles c3fs "m" "c"
        [("reads", ArgValue.file ⟨"in.fq", FileRole.input⟩)] none
        CmdResult.noneV).in_files ∧
    c3fi.hash.isSome = true ∧ c3fi.size.isSome = true ∧
    c3fi.mtime.isSome = true ∧ c3fi.ctime.isSome = true ∧
    c3fi.owner = none := by
  refine ⟨List.Mem.head _, ?_, ?_, ?_, ?_, ?_⟩ <;> decide

/-- Claim C3 (amended: stat-derived fields are recorded only as far as the
underlying calls succeed — size/mtime/ctime when `os.stat` succeeds, owner
additionally when the uid lookup succeeds; this is the only change forced
by the counterexample): output occurrences of a failed command record only
path information, with no identity or stat fields; input occurrences, and
output occurrences of a non-failed command, carry the content-identity
field, and carry size/mtime/ctime/owner as resolved from the file system
and passwd database when the file can be statted. -/
theorem c3_occurrence_fields (env : TrackEnv) (o : Oracles) (fs : FS)
    (cm cn : String) (argsD : List (String × ArgValue))
    (cexc : Option String) (cres : CmdResult) :
    (∀ pn fi, (pn, fi) ∈
        (buildStepData env o fs cm cn argsD cexc cres).out_files →
      cexc ≠ none →
      fi.hash = none ∧ fi.size = none ∧ fi.mtime = none ∧
        fi.ctime = none ∧ fi.owner = none) ∧
    (∀ pn fi, (pn, fi) ∈
        (buildStepData env o fs cm cn argsD cexc cres).in_files →
      fi.hash.isSome = true ∧
      ∀ fd, fs fi.fname = some fd →
        fi.size = some fd.size ∧ fi.mtime = some fd.mtime ∧
          fi.ctime = some fd.ctime ∧ fi.owner = o.pwdb fd.uid) ∧
    (∀ pn fi, (pn, fi) ∈
        (buildStepData env o fs cm cn argsD cexc cres).out_files →
      cexc = none →
      fi.hash.isSome = true ∧
      ∀ fd, fs fi.fname = some fd →
        fi.size = some fd.size ∧ fi.mtime = some fd.mtime ∧
          fi.ctime = some fd.ctime ∧ fi.owner = o.pwdb fd.uid) := by
  refine ⟨?_, ?_, ?_⟩
  · intro pn fi hmem hne
    rcases mem_buildPorts_snd o fs cexc _ ([], []) (pn, fi) hmem with
      h | ⟨av, p, _, _, hrole, heq⟩
    · exact absurd h (List.not_mem_nil _)
    · have hfi : fi = buildFileInfo o fs cexc av.1 p.1 p.2 :=
        congrArg Prod.snd heq
      have hcond : ¬(p.2.role = FileRole.input ∨ cexc = none) := by
        cases hc : cexc with
        | none => exact absurd hc hne
        | some s => simp [hrole]
      rw [hfi, buildFileInfo_eq_neg o fs cexc av.1 p.1 p.2 hcond]
      exact ⟨rfl, rfl, rfl, rfl, rfl⟩
  · intro pn fi hmem
    rcases mem_buildPorts_fst o fs cexc _ ([], []) (pn, fi) hmem with
      h | ⟨av, p, _, _, hrole, heq⟩
    · exact absurd h (List.not_mem_nil _)
    · have hfi : fi = buildFileInfo o fs cexc av.1 p.1 p.2 :=
        congrArg Prod.snd heq
      have hcond : p.2.role = FileRole.input ∨ cexc = none := Or.inl hrole
      rw [hfi, buildFileInfo_eq_pos o fs cexc av.1 p.1 p.2 hcond]
      cases hfs : fs p.2.path with
      | none =>
        refine ⟨rfl, ?_⟩
        intro fd hfd
        have hfd2 : fs p.2.path = some fd := hfd
        rw [hfs] at hfd2
        exact Option.noConfusion hfd2
      | some fd0 =>
        refine ⟨rfl, ?_⟩
        intro fd hfd
        have hfd2 : fs p.2.path = some fd := hfd
        rw [hfs] at hfd2
        cases Option.some.inj hfd2
        exact ⟨rfl, rfl, rfl, rfl⟩
  · intro pn fi hmem hnone
    rcases mem_buildPorts_snd o fs cexc _ ([], []) (pn, fi) hmem with
      h | ⟨av, p, _, _, hrole, heq⟩
    · exact absurd h (List.not_mem_nil _)
    · have hfi : fi = buildFileInfo o fs cexc av.1 p.1 p.2 :=
        congrArg Prod.snd heq
      have hcond : p.2.role = FileRole.input ∨ cexc = none := Or.inr hnone
      rw [hfi, buildFileInfo_eq_pos o fs cexc av.1 p.1 p.2 hcond]
      cases hfs : fs p.2.path with
      | none =>
        refine ⟨rfl, ?_⟩
        intro fd hfd
        have hfd2 : fs p.2.path = some fd := hfd
        rw [hfs] at hfd2
        exact Option.noConfusion hfd2
      | some fd0 =>
        refine ⟨rfl, ?_⟩
        intro fd hfd
        have hfd2 : fs p.2.path = some fd := hfd
        rw [hfs] at hfd2
        cases Option.some.inj hfd2
        exact ⟨rfl, rfl, rfl, rfl⟩

/-- Witness for C3 (amended): the fixture input occurrence carries the hash
and the stat fields resolved from the fixture file system. -/
theorem c3_occurrence_fields_witness :
    c3fi.hash.isSome = true ∧ c3fi.size = some c3fd.size ∧
    c3fi.mtime = some c3fd.mtime ∧ c3fi.ctime = some c3fd.ctime ∧
    c3fi.owner = cOracles.pwdb c3fd.uid :=
  have h := (c3_occurrence_fields cEnvOn cOracles c3fs "m" "c"
      [("reads", ArgValue.file ⟨"in.fq", FileRole.input⟩)] none
      CmdResult.noneV).2.1 (port_name "reads" []) c3fi (List.Mem.head _)
  ⟨h.1, (h.2 c3fd (by decide)).1, (h.2 c3fd (by decide)).2.1,
   (h.2 c3fd (by decide)).2.2.1, (h.2 c3fd (by decide)).2.2.2⟩

/-- `insOcc` on an input occurrence updates only the input side. -/
theorem insOcc_input_eq {o : Oracles} {fs : FS} {cexc : Option String}
    {a : String} {st : List (String × FileInfo) × List (String × FileInfo)}
    {p : List Nat × FileArg} (hr : p.2.role = FileRole.input) :
    insOcc o fs cexc a st p =
      (dictSet st.1 (port_name a p.1) (buildFileInfo o fs cexc a p.1 p.2),
       st.2) := by
  simp [insOcc, hr]

/-- `insOcc` on an output occurrence updates only the output side. -/
theorem insOcc_output_eq {o : Oracles} {fs : FS} {cexc : Option String}
    {a : String} {st : List (String × FileInfo) × List (String × FileInfo)}
    {p : List Nat × FileArg} (hr : p.2.role = FileRole.output) :
    insOcc o fs cexc a st p =
      (st.1,
       dictSet st.2 (port_name a p.1) (buildFileInfo o fs cexc a p.1 p.2)) := by
  simp [insOcc, hr]

/-- `insOcc` never loses keys on the input side. -/
theorem keys_mono_insOcc_fst {o : Oracles} {fs : FS} {cexc : Option String}
    {a : String} {st : List (String × FileInfo) × List (String × FileInfo)}
    {p : List Nat × FileArg} {x : String}
    (hx : x ∈ st.1.map Prod.fst) :
    x ∈ (insOcc o fs cexc a st p).1.map Prod.fst := by
  cases hr : p.2.role with
  | input =>
    rw [insOcc_input_eq hr]
    exact keys_mono_dictSet hx
  | output =>
    rw [insOcc_output_eq hr]
    exact hx

/-- `insOcc` never loses keys on the output side. -/
theorem keys_mono_insOcc_snd {o : Oracles} {fs : FS} {cexc : Option String}
    {a : String} {st : List (String × FileInfo) × List (String × FileInfo)}
    {p : List Nat × FileArg} {x : String}
    (hx : x ∈ st.2.map Prod.fst) :
    x ∈ (insOcc o fs cexc a st p).2.map Prod.fst := by
  cases hr : p.2.role with
  | input =>
    rw [insOcc_input_eq hr]
    exact hx
  | output =>
    rw [insOcc_output_eq hr]
    exact keys_mono_dictSet hx

/-- The inner `get_FileArgs` loop never loses keys on the input side. -/
theorem keys_mono_inner_fst (o : Oracles) (fs : FS) (cexc : Option String)
    (a : String) (l : List (List Nat × FileArg)) :
    ∀ st x, x ∈ st.1.map Prod.fst →
      x ∈ ((l.foldl (insOcc o fs cexc a) st).1).map Prod.fst := by
  induction l with
  | nil => exact fun st x hx => hx
  | cons q t ih => exact fun st x hx => ih _ x (keys_mono_insOcc_fst hx)

/-- The inner `get_FileArgs` loop never loses keys on the output side. -/
theorem keys_mono_inner_snd (o : Oracles) (fs : FS) (cexc : Option String)
    (a : String) (l : List (List Nat × FileArg)) :
    ∀ st x, x ∈ st.2.map Prod.fst →
      x ∈ ((l.foldl (insOcc o fs cexc a) st).2).map Prod.fst := by
  induction l with
  | nil => exact fun st x hx => hx
  | cons q t ih => exact fun st x hx => ih _ x (keys_mono_insOcc_snd hx)

/-- The outer loop over argument/metadata pairs never loses keys. -/
theorem keys_mono_outer_fst (o : Oracles) (fs : FS) (cexc : Option String)
    (pairs : List (String × ArgValue)) :
    ∀ st x, x ∈ st.1.map Prod.fst →
      x ∈ ((pairs.foldl
        (fun st av => (get_FileArgs av.2 []).foldl (insOcc o fs cexc av.1) st)
        st).1).map Prod.fst := by
  induction pairs with
  | nil => exact fun st x hx => hx
  | cons q t ih =>
    exact fun st x hx => ih _ x (keys_mono_inner_fst o fs cexc q.1 _ st x hx)

/-- The outer loop over argument/metadata pairs never loses keys
(output side). -/
theorem keys_mono_outer_snd (o : Oracles) (fs : FS) (cexc : Option String)
    (pairs : List (String × ArgValue)) :
    ∀ st x, x ∈ st.2.map Prod.fst →
      x ∈ ((pairs.foldl
        (fun st av => (get_FileArgs av.2 []).foldl (insOcc o fs cexc av.1) st)
        st).2).map Prod.fst := by
  induction pairs with
  | nil => exact fun st x hx => hx
  | cons q t ih =>
    exact fun st x hx => ih _ x (keys_mono_inner_snd o fs cexc q.1 _ st x hx)

/-- Processing a list that contains an input occurrence records its port
name among the input-side keys. -/
theorem key_inner_input (o : Oracles) (fs : FS) (cexc : Option String)
    (a : String) (l : List (List Nat × FileArg)) :
    ∀ st p, p ∈ l → p.2.role = FileRole.input →
      port_name a p.1 ∈ ((l.foldl (insOcc o fs cexc a) st).1).map Prod.fst := by
  induction l with
  | nil => exact fun st p hp _ => absurd hp (List.not_mem_nil p)
  | cons q t ih =>
    intro st p hp hrole
    rcases List.mem_cons.mp hp with h | h
    · subst h
      refine keys_mono_inner_fst o fs cexc a t _ _ ?_
      rw [insOcc_input_eq hrole]
      exact key_mem_dictSet _ _ _
    · exact ih _ p h hrole

/-- Processing a list that contains an output occurrence records its port
name among the output-side keys. -/
theorem key_inner_output (o : Oracles) (fs : FS) (cexc : Option String)
    (a : String) (l : List (List Nat × FileArg)) :
    ∀ st p, p ∈ l → p.2.role = FileRole.output →
      port_name a p.1 ∈ ((l.foldl (insOcc o fs cexc a) st).2).map Prod.fst := by
  induction l with
  | nil => exact fun st p hp _ => absurd hp (List.not_mem_nil p)
  | cons q t ih =>
    intro st p hp hrole
    rcases List.mem_cons.mp hp with h | h
    · subst h
      refine keys_mono_inner_snd o fs cexc a t _ _ ?_
      rw [insOcc_output_eq hrole]
      exact key_mem_dictSet _ _ _
    · exact ih _ p h hrole

/-- Every input occurrence discovered in the processed pairs has its port
name among the input-side keys of the complete mapping. -/
theorem key_outer_input (o : Oracles) (fs : FS) (cexc : Option String)
    (pairs : List (String × ArgValue)) :
    ∀ st av p, av ∈ pairs → p ∈ get_FileArgs av.2 [] →
      p.2.role = FileRole.input →
      port_name av.1 p.1 ∈ ((pairs.foldl
        (fun st av => (get_FileArgs av.2 []).foldl (insOcc o fs cexc av.1) st)
        st).1).map Prod.fst := by
  induction pairs with
  | nil => exact fun st av p hav _ _ => absurd hav (List.not_mem_nil av)
  | cons q t ih =>
    intro st av p hav hp hrole
    rcases List.mem_cons.mp hav with h | h
    · subst h
      exact keys_mono_outer_fst o fs cexc t _ _
        (key_inner_input o fs cexc av.1 _ st p hp hrole)
    · exact ih _ av p h hp hrole

/-- Every output occurrence discovered in the processed pairs has its port
name among the output-side keys of the complete mapping. -/
theorem key_outer_output (o : Oracles) (fs : FS) (cexc : Option String)
    (pairs : List (String × ArgValue)) :
    ∀ st av p, av ∈ pairs → p ∈ get_FileArgs av.2 [] →
      p.2.role = FileRole.output →
      port_name av.1 p.1 ∈ ((pairs.foldl
        (fun st av => (get_FileArgs av.2 []).foldl (insOcc o fs cexc av.1) st)
        st).2).map Prod.fst := by
  induction pairs with
  | nil => exact fun st av p hav _ _ => absurd hav (List.not_mem_nil av)
  | cons q t ih =>
    intro st av p hav hp hrole
    rcases List.mem_cons.mp hav with h | h
    · subst h
      exact keys_mono_outer_snd o fs cexc t _ _
        (key_inner_output o fs cexc av.1 _ st p hp hrole)
    · exact ih _ av p h hp hrole

/-- Argument dict fixture with one tracked input file and the `--metadata`
entry added by the wrapper. -/
def c9argsD : List (String × ArgValue) :=
  [("reads", ArgValue.file ⟨"r.fq", FileRole.input⟩),
   ("metadata", ArgValue.scalar "kv")]

/-- Counterexample to claim C9 as stated: the `args` attribute of the
persisted record is the argument dict with only `metadata` and `func_main`
removed — values tracked as file capabilities are NOT removed from it, so a
tracked input file appears both among the recorded arguments and in the
`in_files` port mapping. -/
theorem c9_counterexample :
    ("reads", ArgValue.file ⟨"r.fq", FileRole.input⟩) ∈
      (buildStepData cEnvOn cOracles fs0 "m" "c" c9argsD none
        CmdResult.noneV).args ∧
    (ArgValue.file ⟨"r.fq", FileRole.input⟩).hasFileArg = true ∧
    "reads" ∈ ((buildStepData cEnvOn cOracles fs0 "m" "c" c9argsD none
        CmdResult.noneV).in_files.map Prod.fst) := by
  refine ⟨List.Mem.head _, rfl, ?_⟩
  exact List.Mem.head _

/-- Claim C9 (amended: the `args` field holds the whole argument dict minus
the `metadata` and `func_main` entries — including any file-capability
values, which the claim wrongly said are excluded): file occurrences are
additionally carried in the `in_files`/`out_files` port mappings, keyed by
argument name plus structural index. -/
theorem c9_args_and_ports (env : TrackEnv) (o : Oracles) (fs : FS)
    (cm cn : String) (argsD : List (String × ArgValue))
    (cexc : Option String) (cres : CmdResult) :
    (buildStepData env o fs cm cn argsD cexc cres).args =
      argsD.filter
        (fun kv => !(kv.1 == "metadata") && !(kv.1 == "func_main")) ∧
    (∀ a v, (a, v) ∈ ((buildStepData env o fs cm cn argsD cexc cres).args ++
        (match cres with | CmdResult.mapping m => m | _ => [])) →
      ∀ idx f, (idx, f) ∈ get_FileArgs v [] →
        (f.role = FileRole.input →
          port_name a idx ∈
            ((buildStepData env o fs cm cn argsD cexc cres).in_files.map
              Prod.fst)) ∧
        (f.role = FileRole.output →
          port_name a idx ∈
            ((buildStepData env o fs cm cn argsD cexc cres).out_files.map
              Prod.fst))) := by
  refine ⟨rfl, ?_⟩
  intro a v hav idx f hp
  constructor
  · intro hrole
    exact key_outer_input o fs cexc _ ([], []) (a, v) (idx, f) hav hp hrole
  · intro hrole
    exact key_outer_output o fs cexc _ ([], []) (a, v) (idx, f) hav hp hrole

/-- Witness for C9 (amended) at the fixture arguments: the tracked input
file yields the port key `reads` in the input port mapping. -/
theorem c9_args_and_ports_witness :
    port_name "reads" [] ∈
      ((buildStepData cEnvOn cOracles fs0 "m" "c" c9argsD none
        CmdResult.noneV).in_files.map Prod.fst) :=
  ((c9_args_and_ports cEnvOn cOracles fs0 "m" "c" c9argsD none
      CmdResult.noneV).2 "reads" (ArgValue.file ⟨"r.fq", FileRole.input⟩)
      (List.Mem.head _) [] ⟨"r.fq", FileRole.input⟩ (List.Mem.head _)).1 rfl

/-!
## Provenance graph: embedding of `ProvenanceGraph.load`
-/

/-- Node kinds attached by `load` via the `node_kind` attribute. -/
inductive NodeKind where
  | step
  | input
  | output
  | file
deriving DecidableEq, Repr

/-- A directed graph as built by `load`: node keys, `(node, node_kind)`
attribute assignments, and directed edges.  Sets, because networkx node and
edge insertion is idempotent keyed insertion. -/
@[ext]
structure PGraph where
  nodes : Finset String
  kinds : Finset (String × NodeKind)
  edges : Finset (String × String)
deriving DecidableEq

/-- The empty graph. -/
def PGraph.empty : PGraph := ⟨∅, ∅, ∅⟩

/-- `add_node(n)` (no attributes). -/
def PGraph.addNode (g : PGraph) (n : String) : PGraph :=
  { g with nodes := insert n g.nodes }

/-- `add_node(n, node_kind=k)`. -/
def PGraph.addNodeKind (g : PGraph) (n : String) (k : NodeKind) : PGraph :=
  { g with nodes := insert n g.nodes, kinds := insert (n, k) g.kinds }

/-- `add_edge(a, b)` (adds the endpoint nodes as networkx does). -/
def PGraph.addEdge (g : PGraph) (a b : String) : PGraph :=
  { g with nodes := insert a (insert b g.nodes),
           edges := insert (a, b) g.edges }

/-- A persisted step record as read back by `load` (the fields it uses). -/
structure StepRecord where
  step_id : String
  in_files : List (String × FileInfo)
  out_files : List (String × FileInfo)
deriving DecidableEq, Repr

/-- `port_id = step_id + '__' + port_name`. -/
def port_id (sid pn : String) : String := sid ++ "__" ++ pn

/-- Insertion of one port entry, mirroring the inner loop of `load`:
add the port node with its attributes, its role kind, the port/step edge,
and — when the `hash` key is present and non-empty — the file node keyed by
the hash together with the file/port edge. -/
def addPort (isIn : Bool) (sid : String) (g : PGraph) (pn : String)
    (fi : FileInfo) : PGraph :=
  let pid := port_id sid pn
  let g1 := g.addNode pid
  let g2 := g1.addNodeKind pid (if isIn then NodeKind.input else NodeKind.output)
  let g3 := if isIn then g2.addEdge pid sid else g2.addEdge sid pid
  match fi.hash with
  | some h =>
    if h ≠ "" then
      let g4 := g3.addNodeKind h NodeKind.file
      if isIn then g4.addEdge h pid else g4.addEdge pid h
    else g3
  | none => g3

/-- Insertion of one step record: the step node, then the `in_files` ports,
then the `out_files` ports, as in the `for file_kind in (...)` loop. -/
def addRecord (g : PGraph) (r : StepRecord) : PGraph :=
  let g1 := g.addNodeKind r.step_id NodeKind.step
  let g2 := r.in_files.foldl (fun g pf => addPort true r.step_id g pf.1 pf.2) g1
  r.out_files.foldl (fun g pf => addPort false r.step_id g pf.1 pf.2) g2

/-- `ProvenanceGraph.load` over an already-parsed list of step records,
with the graph made an explicit value built from empty (the source's `load`
refers to a graph variable `pgraph` that is never defined; per the spec the
intent is a freshly built graph per call). -/
def loadGraph (records : List StepRecord) : PGraph :=
  records.foldl addRecord PGraph.empty

/-- Componentwise union of graphs. -/
def PGraph.merge (g h : PGraph) : PGraph :=
  ⟨g.nodes ∪ h.nodes, g.kinds ∪ h.kinds, g.edges ∪ h.edges⟩

theorem PGraph.merge_empty (g : PGraph) : g.merge PGraph.empty = g := by
  ext1 <;> simp [PGraph.merge, PGraph.empty]

theorem PGraph.merge_assoc (a b c : PGraph) :
    (a.merge b).merge c = a.merge (b.merge c) := by
  ext1 <;> simp [PGraph.merge, Finset.union_assoc]

theorem PGraph.merge_comm (a b : PGraph) : a.merge b = b.merge a := by
  ext1 <;> simp [PGraph.merge, Finset.union_comm]

/-- Primitive insertions distribute over a merge on the left. -/
theorem addNode_merge (g h : PGraph) (n : String) :
    (g.merge h).addNode n = g.merge (h.addNode n) := by
  ext1 <;> simp [PGraph.merge, PGraph.addNode, Finset.union_insert]

theorem addNodeKind_merge (g h : PGraph) (n : String) (k : NodeKind) :
    (g.merge h).addNodeKind n k = g.merge (h.addNodeKind n k) := by
  ext1 <;> simp [PGraph.merge, PGraph.addNodeKind, Finset.union_insert]

theorem addEdge_merge (g h : PGraph) (a b : String) :
    (g.merge h).addEdge a b = g.merge (h.addEdge a b) := by
  ext1 <;> simp [PGraph.merge, PGraph.addEdge, Finset.union_insert]

/-- `addPort` distributes over a merge on the left. -/
theorem addPort_merge (isIn : Bool) (sid : String) (g h : PGraph)
    (pn : String) (fi : FileInfo) :
    addPort isIn sid (g.merge h) pn fi = g.merge (addPort isIn sid h pn fi) := by
  cases hh : fi.hash with
  | none =>
    cases isIn <;>
      simp [addPort, hh, addNode_merge, addNodeKind_merge, addEdge_merge]
  | some s =>
    by_cases hs : s = ""
    · cases isIn <;>
        simp [addPort, hh, hs, addNode_merge, addNodeKind_merge, addEdge_merge]
    · cases isIn <;>
        simp [addPort, hh, hs, addNode_merge, addNodeKind_merge, addEdge_merge]

/-- The port-insertion loops distribute over a merge on the left. -/
theorem foldl_addPort_merge (isIn : Bool) (sid : String)
    (l : List (String × FileInfo)) :
    ∀ g h : PGraph,
      l.foldl (fun g pf => addPort isIn sid g pf.1 pf.2) (g.merge h) =
        g.merge (l.foldl (fun g pf => addPort isIn sid g pf.1 pf.2) h) := by
  induction l with
  | nil => exact fun g h => rfl
  | cons q t ih =>
    intro g h
    simp only [List.foldl_cons]
    rw [addPort_merge, ih]

/-- `addRecord` distributes over a merge on the left. -/
theorem addRecord_merge (g h : PGraph) (r : StepRecord) :
    addRecord (g.merge h) r = g.merge (addRecord h r) := by
  dsimp only [addRecord]
  rw [addNodeKind_merge, foldl_addPort_merge, foldl_addPort_merge]

/-- Each record's contribution is merged onto whatever graph is given. -/
theorem addRecord_as_merge (g : PGraph) (r : StepRecord) :
    addRecord g r = g.merge (addRecord PGraph.empty r) := by
  have h := addRecord_merge g PGraph.empty r
  rwa [PGraph.merge_empty] at h

/-- `addRecord` is commutative, so record order cannot matter. -/
theorem addRecord_comm (g : PGraph) (r1 r2 : StepRecord) :
    addRecord (addRecord g r1) r2 = addRecord (addRecord g r2) r1 := by
  rw [addRecord_as_merge (addRecord g r1) r2, addRecord_as_merge g r1,
    addRecord_as_merge (addRecord g r2) r1, addRecord_as_merge g r2,
    PGraph.merge_assoc, PGraph.merge_assoc,
    PGraph.merge_comm (addRecord PGraph.empty r1) (addRecord PGraph.empty r2)]

/-- Folding records onto any base graph merges in the graph built fresh. -/
theorem foldl_addRecord_merge (records : List StepRecord) :
    ∀ g : PGraph, records.foldl addRecord g = g.merge (loadGraph records) := by
  induction records with
  | nil => exact fun g => (PGraph.merge_empty g).symm
  | cons r t ih =>
    intro g
    simp only [loadGraph, List.foldl_cons]
    rw [ih (addRecord g r), ih (addRecord PGraph.empty r),
      addRecord_as_merge g r, PGraph.merge_assoc]

/-- `addPort` preserves existing edges. -/
theorem addPort_edges_mono (isIn : Bool) (sid : String) (g : PGraph)
    (pn : String) (fi : FileInfo) {x : String × String} (hx : x ∈ g.edges) :
    x ∈ (addPort isIn sid g pn fi).edges := by
  cases hh : fi.hash with
  | none =>
    cases isIn <;>
      simp [addPort, hh, PGraph.addNode, PGraph.addNodeKind, PGraph.addEdge, hx]
  | some s =>
    by_cases hs : s = "" <;> cases isIn <;>
      simp [addPort, hh, hs, PGraph.addNode, PGraph.addNodeKind,
        PGraph.addEdge, hx]

/-- `addPort` preserves existing kind assignments. -/
theorem addPort_kinds_mono (isIn : Bool) (sid : String) (g : PGraph)
    (pn : String) (fi : FileInfo) {x : String × NodeKind} (hx : x ∈ g.kinds) :
    x ∈ (addPort isIn sid g pn fi).kinds := by
  cases hh : fi.hash with
  | none =>
    cases isIn <;>
      simp [addPort, hh, PGraph.addNode, PGraph.addNodeKind, PGraph.addEdge, hx]
  | some s =>
    by_cases hs : s = "" <;> cases isIn <;>
      simp [addPort, hh, hs, PGraph.addNode, PGraph.addNodeKind,
        PGraph.addEdge, hx]

/-- `addPort` on an input port adds the port → step edge. -/
theorem addPort_port_edge_in (sid : String) (g : PGraph) (pn : String)
    (fi : FileInfo) :
    (port_id sid pn, sid) ∈ (addPort true sid g pn fi).edges := by
  cases hh : fi.hash with
  | none =>
    simp [addPort, hh, PGraph.addNode, PGraph.addNodeKind, PGraph.addEdge]
  | some s =>
    by_cases hs : s = "" <;>
      simp [addPort, hh, hs, PGraph.addNode, PGraph.addNodeKind, PGraph.addEdge]

/-- `addPort` on an output port adds the step → port edge. -/
theorem addPort_port_edge_out (sid : String) (g : PGraph) (pn : String)
    (fi : FileInfo) :
    (sid, port_id sid pn) ∈ (addPort false sid g pn fi).edges := by
  cases hh : fi.hash with
  | none =>
    simp [addPort, hh, PGraph.addNode, PGraph.addNodeKind, PGraph.addEdge]
  | some s =>
    by_cases hs : s = "" <;>
      simp [addPort, hh, hs, PGraph.addNode, PGraph.addNodeKind, PGraph.addEdge]

/-- `addPort` on an input port with a non-empty hash adds the
file → port edge and marks the hash node as a file node. -/
theorem addPort_file_edge_in (sid : String) (g : PGraph) (pn : String)
    (fi : FileInfo) (h : String) (hh : fi.hash = some h) (hne : h ≠ "") :
    (h, port_id sid pn) ∈ (addPort true sid g pn fi).edges ∧
    (h, NodeKind.file) ∈ (addPort true sid g pn fi).kinds := by
  constructor <;>
    simp [addPort, hh, hne, PGraph.addNode, PGraph.addNodeKind, PGraph.addEdge]

/-- `addPort` on an output port with a non-empty hash adds the
port → file edge and marks the hash node as a file node. -/
theorem addPort_file_edge_out (sid : String) (g : PGraph) (pn : String)
    (fi : FileInfo) (h : String) (hh : fi.hash = some h) (hne : h ≠ "") :
    (port_id sid pn, h) ∈ (addPort false sid g pn fi).edges ∧
    (h, NodeKind.file) ∈ (addPort false sid g pn fi).kinds := by
  constructor <;>
    simp [addPort, hh, hne, PGraph.addNode, PGraph.addNodeKind, PGraph.addEdge]

/-- The port-insertion loop preserves existing edges. -/
theorem foldl_addPort_edges_mono (isIn : Bool) (sid : String)
    (l : List (String × FileInfo)) :
    ∀ (g : PGraph) (x : String × String), x ∈ g.edges →
      x ∈ (l.foldl (fun g pf => addPort isIn sid g pf.1 pf.2) g).edges := by
  induction l with
  | nil => exact fun g x hx => hx
  | cons q t ih =>
    exact fun g x hx => ih _ x (addPort_edges_mono isIn sid g q.1 q.2 hx)

/-- The port-insertion loop preserves existing kind assignments. -/
theorem foldl_addPort_kinds_mono (isIn : Bool) (sid : String)
    (l : List (String × FileInfo)) :
    ∀ (g : PGraph) (x : String × NodeKind), x ∈ g.kinds →
      x ∈ (l.foldl (fun g pf => addPort isIn sid g pf.1 pf.2) g).kinds := by
  induction l with
  | nil => exact fun g x hx => hx
  | cons q t ih =>
    exact fun g x hx => ih _ x (addPort_kinds_mono isIn sid g q.1 q.2 hx)

/-- Each entry of an input-port loop contributes its port → step edge. -/
theorem foldl_port_edge_in (sid : String) (l : List (String × FileInfo)) :
    ∀ (g : PGraph) pn fi, (pn, fi) ∈ l →
      (port_id sid pn, sid) ∈
        (l.foldl (fun g pf => addPort true sid g pf.1 pf.2) g).edges := by
  induction l with
  | nil => exact fun g pn fi hp => absurd hp (List.not_mem_nil _)
  | cons q t ih =>
    intro g pn fi hp
    rcases List.mem_cons.mp hp with hq | hq
    · have : q = (pn, fi) := hq.symm
      subst this
      exact foldl_addPort_edges_mono true sid t _ _
        (addPort_port_edge_in sid g pn fi)
    · exact ih _ pn fi hq

/-- Each entry of an output-port loop contributes its step → port edge. -/
theorem foldl_port_edge_out (sid : String) (l : List (String × FileInfo)) :
    ∀ (g : PGraph) pn fi, (pn, fi) ∈ l →
      (sid, port_id sid pn) ∈
        (l.foldl (fun g pf => addPort false sid g pf.1 pf.2) g).edges := by
  induction l with
  | nil => exact fun g pn fi hp => absurd hp (List.not_mem_nil _)
  | cons q t ih =>
    intro g pn fi hp
    rcases List.mem_cons.mp hp with hq | hq
    · have : q = (pn, fi) := hq.symm
      subst this
      exact foldl_addPort_edges_mono false sid t _ _
        (addPort_port_edge_out sid g pn fi)
    · exact ih _ pn fi hq

/-- Each hashed entry of an input-port loop contributes its file → port
edge and the file-kind assignment for its hash node. -/
theorem foldl_file_edge_in (sid : String) (l : List (String × FileInfo)) :
    ∀ (g : PGraph) pn fi h, (pn, fi) ∈ l → fi.hash = some h → h ≠ "" →
      (h, port_id sid pn) ∈
        (l.foldl (fun g pf => addPort true sid g pf.1 pf.2) g).edges ∧
      (h, NodeKind.file) ∈
        (l.foldl (fun g pf => addPort true sid g pf.1 pf.2) g).kinds := by
  induction l with
  | nil => exact fun g pn fi h hp => absurd hp (List.not_mem_nil _)
  | cons q t ih =>
    intro g pn fi h hp hh hne
    rcases List.mem_cons.mp hp with hq | hq
    · have : q = (pn, fi) := hq.symm
      subst this
      exact ⟨foldl_addPort_edges_mono true sid t _ _
          (addPort_file_edge_in sid g pn fi h hh hne).1,
        foldl_addPort_kinds_mono true sid t _ _
          (addPort_file_edge_in sid g pn fi h hh hne).2⟩
    · exact ih _ pn fi h hq hh hne

/-- Each hashed entry of an output-port loop contributes its port → file
edge and the file-kind assignment for its hash node. -/
theorem foldl_file_edge_out (sid : String) (l : List (String × FileInfo)) :
    ∀ (g : PGraph) pn fi h, (pn, fi) ∈ l → fi.hash = some h → h ≠ "" →
      (port_id sid pn, h) ∈
        (l.foldl (fun g pf => addPort false sid g pf.1 pf.2) g).edges ∧
      (h, NodeKind.file) ∈
        (l.foldl (fun g pf => addPort false sid g pf.1 pf.2) g).kinds := by
  induction l with
  | nil => exact fun g pn fi h hp => absurd hp (List.not_mem_nil _)
  | cons q t ih =>
    intro g pn fi h hp hh hne
    rcases List.mem_cons.mp hp with hq | hq
    · have : q = (pn, fi) := hq.symm
      subst this
      exact ⟨foldl_addPort_edges_mono false sid t _ _
          (addPort_file_edge_out sid g pn fi h hh hne).1,
        foldl_addPort_kinds_mono false sid t _ _
          (addPort_file_edge_out sid g pn fi h hh hne).2⟩
    · exact ih _ pn fi h hq hh hne

/-- An input occurrence of a record contributes, inside `addRecord`, its
port → step edge and (when hashed, non-empty) file → port edge and file
node kind. -/
theorem addRecord_in_occurrence (g : PGraph) (r : StepRecord)
    (pn : String) (fi : FileInfo) (h : String)
    (hp : (pn, fi) ∈ r.in_files) (hh : fi.hash = some h) (hne : h ≠ "") :
    (port_id r.step_id pn, r.step_id) ∈ (addRecord g r).edges ∧
    (h, port_id r.step_id pn) ∈ (addRecord g r).edges ∧
    (h, NodeKind.file) ∈ (addRecord g r).kinds := by
  dsimp only [addRecord]
  refine ⟨?_, ?_, ?_⟩
  · exact foldl_addPort_edges_mono false r.step_id _ _ _
      (foldl_port_edge_in r.step_id _ _ pn fi hp)
  · exact foldl_addPort_edges_mono false r.step_id _ _ _
      (foldl_file_edge_in r.step_id _ _ pn fi h hp hh hne).1
  · exact foldl_addPort_kinds_mono false r.step_id _ _ _
      (foldl_file_edge_in r.step_id _ _ pn fi h hp hh hne).2

/-- An output occurrence of a record contributes, inside `addRecord`, its
step → port edge and (when hashed, non-empty) port → file edge and file
node kind. -/
theorem addRecord_out_occurrence (g : PGraph) (r : StepRecord)
    (pn : String) (fi : FileInfo) (h : String)
    (hp : (pn, fi) ∈ r.out_files) (hh : fi.hash = some h) (hne : h ≠ "") :
    (r.step_id, port_id r.step_id pn) ∈ (addRecord g r).edges ∧
    (port_id r.step_id pn, h) ∈ (addRecord g r).edges ∧
    (h, NodeKind.file) ∈ (addRecord g r).kinds := by
  dsimp only [addRecord]
  refine ⟨?_, ?_, ?_⟩
  · exact foldl_port_edge_out r.step_id _ _ pn fi hp
  · exact (foldl_file_edge_out r.step_id _ _ pn fi h hp hh hne).1
  · exact (foldl_file_edge_out r.step_id _ _ pn fi h hp hh hne).2

/-- Everything contributed by a loaded record is in the loaded graph
(edges). -/
theorem loadGraph_mem_edges {records : List StepRecord} {r : StepRecord}
    (hr : r ∈ records) {x : String × String}
    (hx : x ∈ (addRecord PGraph.empty r).edges) :
    x ∈ (loadGraph records).edges := by
  induction records with
  | nil => exact absurd hr (List.not_mem_nil r)
  | cons q t ih =>
    have hsplit : loadGraph (q :: t) =
        (addRecord PGraph.empty q).merge (loadGraph t) := by
      simp only [loadGraph, List.foldl_cons]
      exact foldl_addRecord_merge t (addRecord PGraph.empty q)
    rcases List.mem_cons.mp hr with hq | hq
    · subst hq
      rw [hsplit]
      exact Finset.mem_union_left _ hx
    · rw [hsplit]
      exact Finset.mem_union_right _ (ih hq)

/-- Everything contributed by a loaded record is in the loaded graph
(kind assignments). -/
theorem loadGraph_mem_kinds {records : List StepRecord} {r : StepRecord}
    (hr : r ∈ records) {x : String × NodeKind}
    (hx : x ∈ (addRecord PGraph.empty r).kinds) :
    x ∈ (loadGraph records).kinds := by
  induction records with
  | nil => exact absurd hr (List.not_mem_nil r)
  | cons q t ih =>
    have hsplit : loadGraph (q :: t) =
        (addRecord PGraph.empty q).merge (loadGraph t) := by
      simp only [loadGraph, List.foldl_cons]
      exact foldl_addRecord_merge t (addRecord PGraph.empty q)
    rcases List.mem_cons.mp hr with hq | hq
    · subst hq
      rw [hsplit]
      exact Finset.mem_union_left _ hx
    · rw [hsplit]
      exact Finset.mem_union_right _ (ih hq)

/-- Claim C2: in the graph loaded from any record set, every port
occurrence with a non-empty content identity `h` — input or output, whether
or not the identity is shared — is connected to the one file node keyed by
`h` itself (file → input-port, output-port → file), so all ports sharing an
identity share a single file node; in particular, whenever some record `A`
has an output occurrence and some record `B` an input occurrence with the
same identity, the graph contains the path
`A.step → A.port → file(h) → B.port → B.step`. -/
theorem c2_shared_file_node (records : List StepRecord) :
    (∀ r pn fi h, r ∈ records → (pn, fi) ∈ r.in_files →
      fi.hash = some h → h ≠ "" →
      (h, NodeKind.file) ∈ (loadGraph records).kinds ∧
      (h, port_id r.step_id pn) ∈ (loadGraph records).edges ∧
      (port_id r.step_id pn, r.step_id) ∈ (loadGraph records).edges) ∧
    (∀ r pn fi h, r ∈ records → (pn, fi) ∈ r.out_files →
      fi.hash = some h → h ≠ "" →
      (h, NodeKind.file) ∈ (loadGraph records).kinds ∧
      (port_id r.step_id pn, h) ∈ (loadGraph records).edges ∧
      (r.step_id, port_id r.step_id pn) ∈ (loadGraph records).edges) ∧
    (∀ A B pnA pnB fiA fiB h, A ∈ records → B ∈ records →
      (pnA, fiA) ∈ A.out_files → (pnB, fiB) ∈ B.in_files →
      fiA.hash = some h → fiB.hash = some h → h ≠ "" →
      (A.step_id, port_id A.step_id pnA) ∈ (loadGraph records).edges ∧
      (port_id A.step_id pnA, h) ∈ (loadGraph records).edges ∧
      (h, port_id B.step_id pnB) ∈ (loadGraph records).edges ∧
      (port_id B.step_id pnB, B.step_id) ∈ (loadGraph records).edges ∧
      (h, NodeKind.file) ∈ (loadGraph records).kinds) := by
  have hin : ∀ r pn fi h, r ∈ records → (pn, fi) ∈ r.in_files →
      fi.hash = some h → h ≠ "" →
      (h, NodeKind.file) ∈ (loadGraph records).kinds ∧
      (h, port_id r.step_id pn) ∈ (loadGraph records).edges ∧
      (port_id r.step_id pn, r.step_id) ∈ (loadGraph records).edges := by
    intro r pn fi h hr hp hh hne
    have hocc := addRecord_in_occurrence PGraph.empty r pn fi h hp hh hne
    exact ⟨loadGraph_mem_kinds hr hocc.2.2,
      loadGraph_mem_edges hr hocc.2.1, loadGraph_mem_edges hr hocc.1⟩
  have hout : ∀ r pn fi h, r ∈ records → (pn, fi) ∈ r.out_files →
      fi.hash = some h → h ≠ "" →
      (h, NodeKind.file) ∈ (loadGraph records).kinds ∧
      (port_id r.step_id pn, h) ∈ (loadGraph records).edges ∧
      (r.step_id, port_id r.step_id pn) ∈ (loadGraph records).edges := by
    intro r pn fi h hr hp hh hne
    have hocc := addRecord_out_occurrence PGraph.empty r pn fi h hp hh hne
    exact ⟨loadGraph_mem_kinds hr hocc.2.2,
      loadGraph_mem_edges hr hocc.2.1, loadGraph_mem_edges hr hocc.1⟩
  refine ⟨hin, hout, ?_⟩
  intro A B pnA pnB fiA fiB h hA hB hpA hpB hhA hhB hne
  exact ⟨(hout A pnA fiA h hA hpA hhA hne).2.2,
    (hout A pnA fiA h hA hpA hhA hne).2.1,
    (hin B pnB fiB h hB hpB hhB hne).2.1,
    (hin B pnB fiB h hB hpB hhB hne).2.2,
    (hin B pnB fiB h hB hpB hhB hne).1⟩

/-- Output-port occurrence fixture carrying identity `sha1_h`. -/
def fiAout : FileInfo :=
  { fname := "x.bin", realpath := "x.bin", abspath := "x.bin",
    arg := "out", arg_idx := [], hash := some "sha1_h" }

/-- Input-port occurrence fixture carrying the same identity `sha1_h`
under a different path. -/
def fiBin : FileInfo :=
  { fname := "y.bin", realpath := "y.bin", abspath := "y.bin",
    arg := "inp", arg_idx := [], hash := some "sha1_h" }

/-- Step record fixture: step `A` produces the file. -/
def recA : StepRecord :=
  { step_id := "A", in_files := [], out_files := [("out", fiAout)] }

/-- Step record fixture: step `B` consumes the file. -/
def recB : StepRecord :=
  { step_id := "B", in_files := [("inp", fiBin)], out_files := [] }

/-- Witness for C2: loading the two fixture records yields the two-hop
derivation chain through the single file node `sha1_h`. -/
theorem c2_shared_file_node_witness :
    ("A", port_id "A" "out") ∈ (loadGraph [recA, recB]).edges ∧
    (port_id "A" "out", "sha1_h") ∈ (loadGraph [recA, recB]).edges ∧
    ("sha1_h", port_id "B" "inp") ∈ (loadGraph [recA, recB]).edges ∧
    (port_id "B" "inp", "B") ∈ (loadGraph [recA, recB]).edges ∧
    ("sha1_h", NodeKind.file) ∈ (loadGraph [recA, recB]).kinds :=
  (c2_shared_file_node [recA, recB]).2.2 recA recB "out" "inp"
    fiAout fiBin "sha1_h" (List.Mem.head _)
    (List.Mem.tail _ (List.Mem.head _)) (List.Mem.head _)
    (List.Mem.head _) rfl rfl (by decide)

/-- Claim C4 (the intended, repaired `load`; the shipped code crashes, see
the results log): the graph built from a set of persisted step records does
not depend on the order in which the records are processed — permuting the
record list yields the same node, kind and edge sets. -/
theorem c4_load_order_independent {rs1 rs2 : List StepRecord}
    (hperm : rs1.Perm rs2) : loadGraph rs1 = loadGraph rs2 := by
  have hall : ∀ g : PGraph, rs1.foldl addRecord g = rs2.foldl addRecord g := by
    induction hperm with
    | nil => exact fun g => rfl
    | cons x h ih =>
      intro g
      simp only [List.foldl_cons]
      exact ih _
    | swap x y l =>
      intro g
      simp only [List.foldl_cons]
      rw [addRecord_comm]
    | trans h1 h2 ih1 ih2 => exact fun g => (ih1 g).trans (ih2 g)
  exact hall PGraph.empty

/-- Witness for C4: swapping the two fixture records yields the same graph. -/
theorem c4_load_order_independent_witness :
    loadGraph [recA, recB] = loadGraph [recB, recA] :=
  c4_load_order_independent (List.Perm.swap recB recA [])
